import Mathlib

/-!
Verification of the folder_indexer indexing-and-reconciliation engine.

This file gives a shallow embedding of the core of the repository
(`src/folder_indexer/indexer.py`, `watcher.py`, `searcher.py`) and proves
or refutes the frozen claims about it.

Modelling conventions:
* Paths are POSIX-style strings; `str(root / name)` becomes `root ++ "/" ++ name`
  and `os.sep` is `"/"`.
* Filesystem entries carry explicit failure flags: `statFails` models an
  `OSError` raised by `stat()` on that entry (including the second `stat()`
  inside `_extract_content`), `readFails` an `OSError` while opening/reading
  the file bytes, and `listFails` (directories) an error enumerating the
  directory's children (`os.walk` with the default `onerror=None` silently
  skips such a subtree).
* `datetime` timestamps are natural numbers (seconds); wall-clock time in the
  watcher is likewise a natural number.
* The MD5 digest is computed by the external `hashlib` library; no claim
  depends on digest values (only on whether the digest is empty), so it is
  modelled as an injective tagging of the file bytes.
* The whoosh index is the external IndexStore of spec section 4.4, consumed at
  its interface: a committed store is a list of documents, `delete_by_term`
  on the `path`/`dirname` fields is an exact field match, and the `Prefix`
  query is a string-prefix match on `path`.
-/

set_option autoImplicit false

namespace FolderIndexer

/-- Metadata of one file on disk, together with the injected-failure flags the
error-handling claims quantify over. -/
structure FileMeta where
  name : String
  size : Nat
  mtime : Nat
  content : String
  statFails : Bool
  readFails : Bool
  deriving Repr, DecidableEq

/-- Metadata of one directory on disk. `listFails` models an error enumerating
its children; `statFails` an error in `stat()` on the directory itself. -/
structure DirMeta where
  name : String
  mtime : Nat
  statFails : Bool
  listFails : Bool
  deriving Repr, DecidableEq

/-- One filesystem subtree entry: a file, or a directory with its children. -/
inductive FSEntry where
  | file : FileMeta → FSEntry
  | dir : DirMeta → List FSEntry → FSEntry
  deriving Repr

/-- Document stored in the index: the 9 fields of `DirectoryIndexer.SCHEMA`.
`is_directory` is the string `"true"`/`"false"` exactly as in the code. -/
structure Doc where
  path : String
  filename : String
  dirname : String
  content : String
  extension : String
  size : Nat
  modified : Nat
  is_directory : String
  hash : String
  deriving Repr, DecidableEq

/-- Path of the child `name` of directory `p`: `str(Path(p) / name)`. -/
def childPath (p name : String) : String := p ++ "/" ++ name

/-- Boolean string-prefix test, modelling Python `str.startswith` and the
whoosh `Prefix` query on a stored `ID` field. -/
def strStartsWith (pre p : String) : Bool := pre.data.isPrefixOf p.data

/-- Index of the last `'.'` in a list of characters, if any. -/
def lastDotIdx (cs : List Char) : Option Nat :=
  ((List.range cs.length).filter (fun i => cs.getD i ' ' = '.')).getLast?

/-- Embedding of `file_path.suffix.lower()`: pathlib returns `name[i:]` for the
last dot index `i` when `0 < i < len(name) - 1`, else the empty string; the
result is lower-cased. -/
def suffixLower (name : String) : String :=
  match lastDotIdx name.data with
  | none => ""
  | some i =>
      if 0 < i ∧ i + 1 < name.data.length then
        String.mk ((name.data.drop i).map Char.toLower)
      else ""

/-- Model of the MD5 hex digest of a file's bytes (computed by the external
`hashlib` library): an injective tag, never the empty string. -/
def md5Hex (s : String) : String := "md5:" ++ s

/-- Splits a character list at every `'/'` (the component split underlying
`pathlib`), keeping empty components. -/
def splitSlash : List Char → List (List Char)
  | [] => [[]]
  | c :: rest =>
      match splitSlash rest with
      | [] => [[]]
      | g :: gs => if c = '/' then [] :: g :: gs else (c :: g) :: gs

/-- Path components of `p` (Python `p.split(sep)`). -/
def components (p : String) : List String := (splitSlash p.data).map String.mk

/-- Joins components back with the separator (Python `sep.join`). -/
def joinSlash : List String → String
  | [] => ""
  | [x] => x
  | x :: xs => x ++ "/" ++ joinSlash xs

/-- Embedding of `str(Path(p).parent)`: all components but the last, joined;
a single-component path has parent `"."`, a direct child of the root has
parent `"/"`. -/
def parentOf (p : String) : String :=
  let pre := (components p).dropLast
  if pre.isEmpty then "."
  else if pre = [""] then "/"
  else joinSlash pre

/-- Scan configuration: the ignore predicate `DirectoryIndexer._should_ignore`
(hidden-file policy plus gitwildmatch patterns, both external to the scan
algorithm) and `config.indexing.max_file_size` in megabytes. -/
structure ScanCfg where
  ignore : String → Bool
  cap : Nat

/-- Embedding of `DirectoryIndexer._extract_content`. The initial
`file_path.stat()` is OUTSIDE the try block, so its failure is an exception
propagating to the caller (`Except.error`); the size-cap case and an
open/read failure return the empty string; otherwise the text is returned. -/
def extract_content (cap : Nat) (f : FileMeta) : Except Unit String :=
  if f.statFails then Except.error ()
  else if f.size > cap * 1024 * 1024 then Except.ok ""
  else if f.readFails then Except.ok ""
  else Except.ok f.content

/-- Embedding of `DirectoryIndexer._get_file_hash`: an open/read failure is
caught and yields the empty digest. -/
def get_file_hash (f : FileMeta) : String :=
  if f.readFails then "" else md5Hex f.content

/-- Document yielded by `_scan_directory` for a file whose `stat()` succeeded. -/
def fileDoc (cap : Nat) (parent : String) (f : FileMeta) : Doc :=
  { path := childPath parent f.name
    filename := f.name
    dirname := parent
    content := (extract_content cap f).toOption.getD ""
    extension := suffixLower f.name
    size := f.size
    modified := f.mtime
    is_directory := "false"
    hash := get_file_hash f }

/-- Document yielded by `_scan_directory` for a surviving subdirectory. -/
def dirDoc (parent : String) (m : DirMeta) : Doc :=
  { path := childPath parent m.name
    filename := m.name
    dirname := parent
    content := ""
    extension := ""
    size := 0
    modified := m.mtime
    is_directory := "true"
    hash := "" }

/-- Directory-document loop of one `os.walk` level (indexer.py lines 139-154).
Ignored subdirectories are skipped (the `dirs[:]` pruning and the redundant
in-loop check use the same predicate). `dir_path.stat()` is not guarded by a
per-entry try block, so a `statFails` directory raises `OSError` out of the
loop; the generator-level except catches it and the whole walk ends: the
second component `true` signals that abort, and the returned documents are
the ones emitted before it. -/
def emitDirDocs (cfg : ScanCfg) (parent : String) : List FSEntry → List Doc × Bool
  | [] => ([], false)
  | FSEntry.file _ :: rest => emitDirDocs cfg parent rest
  | FSEntry.dir m _ :: rest =>
      if cfg.ignore (childPath parent m.name) then emitDirDocs cfg parent rest
      else if m.statFails then ([], true)
      else
        let (ds, ab) := emitDirDocs cfg parent rest
        (dirDoc parent m :: ds, ab)

/-- File-document loop of one `os.walk` level (indexer.py lines 157-179).
The per-file try block catches `OSError` from `stat()` (directly or inside
`_extract_content`) and skips just that file (`continue`). -/
def emitFileDocs (cfg : ScanCfg) (parent : String) : List FSEntry → List Doc
  | [] => []
  | FSEntry.file f :: rest =>
      if cfg.ignore (childPath parent f.name) then emitFileDocs cfg parent rest
      else if f.statFails then emitFileDocs cfg parent rest
      else fileDoc cfg.cap parent f :: emitFileDocs cfg parent rest
  | FSEntry.dir _ _ :: rest => emitFileDocs cfg parent rest

mutual

/-- Walk of `os.walk(root)` restricted to one yielded triple plus the
recursive walks of its surviving subdirectories, in generator order:
subdirectory documents first, then file documents, then each subdirectory's
subtree. The Bool is the abort flag of `emitDirDocs`; once set, nothing
further is emitted anywhere in the walk. -/
def walkLevel (cfg : ScanCfg) (parent : String) (entries : List FSEntry) : List Doc × Bool :=
  match emitDirDocs cfg parent entries with
  | (ds, true) => (ds, true)
  | (ds, false) =>
      let fds := emitFileDocs cfg parent entries
      let (rs, ab) := recurseDirs cfg parent entries
      (ds ++ fds ++ rs, ab)
termination_by (sizeOf entries, 1)

/-- Recursion of the walk into the pruned subdirectory list. A subdirectory
whose child enumeration fails yields nothing for that subtree (the `os.walk`
default `onerror=None`) and the walk continues with its siblings; an abort
flag from a subtree ends the whole walk. -/
def recurseDirs (cfg : ScanCfg) (parent : String) : List FSEntry → List Doc × Bool
  | [] => ([], false)
  | FSEntry.file _ :: rest => recurseDirs cfg parent rest
  | FSEntry.dir m cs :: rest =>
      if cfg.ignore (childPath parent m.name) then recurseDirs cfg parent rest
      else
        match (if m.listFails then ([], false) else walkLevel cfg (childPath parent m.name) cs) with
        | (ds, true) => (ds, true)
        | (ds, false) =>
            let (rs, ab) := recurseDirs cfg parent rest
            (ds ++ rs, ab)
termination_by l => (sizeOf l, 0)

end

/-- Embedding of `DirectoryIndexer._scan_directory(directory)`: the list of
documents the generator yields. The scan never emits a document for `root`
itself and never consults the ignore predicate on `root`; `rootListFails`
models a failure enumerating the root's own children, which makes the walk
yield nothing. -/
def scan_directory (cfg : ScanCfg) (root : String) (rootListFails : Bool)
    (children : List FSEntry) : List Doc :=
  if rootListFails then [] else (walkLevel cfg root children).fst

/-- Committed state of the whoosh index (spec section 4.4 store contract):
the list of committed documents. -/
abbrev Store := List Doc

/-- Documents found by `searcher.documents(dirname=root)`: exact field match. -/
def dirnameMatches (s : Store) (root : String) : List Doc :=
  s.filter (fun d => d.dirname == root)

/-- Documents found by `searcher.documents(path=root)`: exact key match. -/
def pathMatches (s : Store) (root : String) : List Doc :=
  s.filter (fun d => d.path == root)

/-- Documents found by the `Prefix('path', root + os.sep)` query. -/
def subtreeMatches (s : Store) (root : String) : List Doc :=
  s.filter (fun d => strStartsWith (root ++ "/") d.path)

/-- Concatenated `paths_to_remove` list built by `remove_directory`
(indexer.py lines 251-264): dirname matches, then the exact entry, then the
prefix matches, duplicates included. -/
def removalPaths (s : Store) (root : String) : List String :=
  (dirnameMatches s root).map Doc.path ++ (pathMatches s root).map Doc.path
    ++ (subtreeMatches s root).map Doc.path

/-- Effect of `writer.delete_by_term('path', p)` on the committed store. -/
def deleteByTerm (s : Store) (p : String) : Store :=
  s.filter (fun d => d.path != p)

/-- Embedding of `DirectoryIndexer.remove_directory`: one writer session that
deletes each path of `paths_to_remove` in turn, incrementing `removed_count`
once per list element (duplicates included), then commits. -/
def remove_directory (s : Store) (root : String) : Store × Nat :=
  (removalPaths s root).foldl (fun acc p => (deleteByTerm acc.fst p, acc.snd + 1)) (s, 0)

/-- Embedding of `DirectoryIndexer.index_directory` on an existing directory
`root` with children `children`: first `remove_directory(root)`, then one
writer session staging every scanned document, returning the staged count. -/
def index_directory (cfg : ScanCfg) (s : Store) (root : String) (rootListFails : Bool)
    (children : List FSEntry) : Store × Nat :=
  let s1 := (remove_directory s root).fst
  let docs := scan_directory cfg root rootListFails children
  (s1 ++ docs, docs.length)

/-- Total lexicographic comparison of character lists by code point, the order
Python `sorted` uses on strings. -/
def charListLe : List Char → List Char → Bool
  | [], _ => true
  | _ :: _, [] => false
  | a :: as, b :: bs => if a < b then true else if b < a then false else charListLe as bs

/-- Lexicographic string comparison by code point. -/
def strLe (a b : String) : Bool := charListLe a.data b.data

/-- Insertion into a `strLe`-sorted list. -/
def insertSorted (a : String) : List String → List String
  | [] => [a]
  | b :: bs => if strLe a b then a :: b :: bs else b :: insertSorted a bs

/-- Insertion sort by `strLe`, modelling Python `sorted` on strings. -/
def sortStrs (l : List String) : List String := l.foldr insertSorted []

/-- Embedding of `DirectoryIndexer.get_indexed_directories`: the paths of all
`is_directory = "true"` entries plus the parent path of every file entry,
collected into a set and returned sorted. -/
def get_indexed_directories (s : Store) : List String :=
  sortStrs (((s.filter (fun d => d.is_directory == "true")).map Doc.path
    ++ (s.filter (fun d => d.is_directory == "false")).map (fun d => parentOf d.path)).dedup)

/-- View of the filesystem for `rebuild_index`: the directories that exist on
disk, each with its enumeration-failure flag and children. A path not listed
does not exist (`Path(p).exists()` is false). -/
structure FileSystem where
  dirs : List (String × Bool × List FSEntry)

/-- Looks a directory path up on disk. -/
def resolveDir (fs : FileSystem) (p : String) : Option (Bool × List FSEntry) :=
  (fs.dirs.find? (fun e => e.fst == p)).map Prod.snd

/-- Loop body of `rebuild_index` for one derived root: if the root still
exists on disk it is re-indexed and its count added, otherwise it is skipped
with a warning (no exception). -/
def rebuildStep (cfg : ScanCfg) (fs : FileSystem) (acc : Store × Nat) (r : String) : Store × Nat :=
  match resolveDir fs r with
  | some (lf, cs) =>
      let p := index_directory cfg acc.fst r lf cs
      (p.fst, acc.snd + p.snd)
  | none => acc

/-- Embedding of `DirectoryIndexer.rebuild_index`: derive the known roots from
the committed store, discard the store entirely, then re-run
`index_directory` for every derived root still existing on disk, in sorted
order, skipping (with a warning, not an exception) roots that no longer
exist, and summing the counts. -/
def rebuild_index (cfg : ScanCfg) (fs : FileSystem) (s : Store) : Store × Nat :=
  (get_indexed_directories s).foldl (rebuildStep cfg fs) ([], 0)

/-- Keyword parameters accepted by `DirectoryIndexer.index_directory`
(indexer.py line 184): `def index_directory(self, directory, show_progress=True)`. -/
def index_directory_py_params : List String := ["directory", "show_progress"]

/-- Whether a Python keyword call with the given keyword names binds without a
`TypeError: unexpected keyword argument`. -/
def acceptsKeywordArgs (params : List String) (kwargs : List String) : Bool :=
  kwargs.all (params.contains ·)

/-- State of `IndexUpdateHandler`: the pending update set and the time of the
most recent enqueue. -/
structure WatcherState where
  pending_updates : List String
  last_update_time : Nat
  deriving Repr, DecidableEq

/-- Adds a path to the pending set (Python `set.add`: no duplicates). -/
def insertPending (p : String) (l : List String) : List String :=
  if l.contains p then l else l ++ [p]

/-- Embedding of `IndexUpdateHandler._queue_update`: ignored paths are never
enqueued; otherwise the path joins the pending set and `last_update_time`
becomes the current time. -/
def queue_update (ig : String → Bool) (st : WatcherState) (p : String) (now : Nat) : WatcherState :=
  if ig p then st
  else { pending_updates := insertPending p st.pending_updates, last_update_time := now }

/-- What a single path currently is on disk, for watcher reconciliation. -/
inductive PathNode where
  | file : FileMeta → PathNode
  | dir : DirMeta → PathNode
  deriving Repr

/-- Base name of a path: `Path(p).name`. -/
def baseNameOf (p : String) : String := ((components p).getLast?).getD ""

/-- Document the watcher builds for an existing file at `p`. -/
def watchFileDoc (cap : Nat) (p : String) (f : FileMeta) : Doc :=
  { path := p
    filename := baseNameOf p
    dirname := parentOf p
    content := (extract_content cap f).toOption.getD ""
    extension := suffixLower (baseNameOf p)
    size := f.size
    modified := f.mtime
    is_directory := "false"
    hash := get_file_hash f }

/-- Document the watcher builds for an existing directory at `p`. -/
def watchDirDoc (p : String) (m : DirMeta) : Doc :=
  { path := p
    filename := baseNameOf p
    dirname := parentOf p
    content := ""
    extension := ""
    size := 0
    modified := m.mtime
    is_directory := "true"
    hash := "" }

/-- Embedding of `IndexUpdateHandler._update_single_path`: delete the exact
key, then rebuild and stage a fresh document for the path; a `stat()` or
extraction failure is caught and the fresh document is simply not staged. -/
def update_single_path (cap : Nat) (wfs : String → Option PathNode) (s : Store) (p : String) : Store :=
  let s1 := deleteByTerm s p
  match wfs p with
  | some (PathNode.file f) => if f.statFails then s1 else s1 ++ [watchFileDoc cap p f]
  | some (PathNode.dir m) => if m.statFails then s1 else s1 ++ [watchDirDoc p m]
  | none => s1

/-- Reconciliation of one flushed path (watcher.py lines 47-57): if the path
still exists it is rebuilt in place, otherwise it is deleted by exact key
only (no prefix cascade). -/
def reconcilePath (cap : Nat) (wfs : String → Option PathNode) (s : Store) (p : String) : Store :=
  if (wfs p).isSome then update_single_path cap wfs s p else deleteByTerm s p

/-- Embedding of `IndexUpdateHandler._process_pending_updates`, called on each
one-second tick: if the idle time since the most recent enqueue exceeds the
2-second threshold and the pending set is non-empty, the whole pending set is
flushed as one batch inside one writer session; otherwise nothing happens. -/
def process_pending_updates (cap : Nat) (wfs : String → Option PathNode)
    (st : WatcherState) (s : Store) (now : Nat) : WatcherState × Store :=
  if 2 < now - st.last_update_time ∧ st.pending_updates ≠ [] then
    ({ pending_updates := [], last_update_time := st.last_update_time },
      st.pending_updates.foldl (reconcilePath cap wfs) s)
  else (st, s)

/-- Post-filter pass of `FileSearcher.search` (searcher.py lines 128-140): a
result is dropped when its size is strictly above `max_size` or strictly
below `min_size`, or its modification time is strictly before
`modified_after` or strictly after `modified_before`. -/
def passes_filters (max_size min_size modified_after modified_before : Option Nat) (d : Doc) : Bool :=
  !(match max_size with | some m => decide (d.size > m) | none => false)
    && !(match min_size with | some m => decide (d.size < m) | none => false)
    && !(match modified_after with | some t => decide (d.modified < t) | none => false)
    && !(match modified_before with | some t => decide (d.modified > t) | none => false)

/-- Post-filtered result list of `FileSearcher.search`, applied to the
already-limited result set returned by the store query. -/
def apply_post_filters (max_size min_size modified_after modified_before : Option Nat)
    (results : List Doc) : List Doc :=
  results.filter (passes_filters max_size min_size modified_after modified_before)

/-! Helper lemmas about paths and the scanner. -/

theorem childPath_data (p n : String) : (childPath p n).data = p.data ++ '/' :: n.data := by
  show (p ++ "/" ++ n).data = _
  rw [String.data_append, String.data_append, List.append_assoc]
  rfl

theorem strStartsWith_iff {a b : String} : strStartsWith a b = true ↔ a.data <+: b.data := by
  simp [strStartsWith, List.isPrefixOf_iff_prefix]

theorem sep_data (p : String) : (p ++ "/").data = p.data ++ ['/'] := by
  rw [String.data_append]

theorem strStartsWith_childPath (p n : String) :
    strStartsWith (p ++ "/") (childPath p n) = true := by
  rw [strStartsWith_iff, sep_data, childPath_data]
  exact ⟨n.data, by simp⟩

theorem strStartsWith_sep_trans {p x : String} (n : String)
    (h : strStartsWith (childPath p n ++ "/") x = true) :
    strStartsWith (p ++ "/") x = true := by
  rw [strStartsWith_iff] at h ⊢
  refine List.IsPrefix.trans ?_ h
  rw [sep_data, sep_data, childPath_data]
  exact ⟨n.data ++ ['/'], by simp⟩

theorem ne_of_strStartsWith {r p : String} (h : strStartsWith (r ++ "/") p = true) : p ≠ r := by
  rw [strStartsWith_iff, sep_data] at h
  intro he
  subst he
  have := h.length_le
  simp at this

theorem mem_emitDirDocs_mono {cfg : ScanCfg} {parent : String} {d : Doc} :
    ∀ {es : List FSEntry}, d ∈ (emitDirDocs cfg parent es).fst →
      ∃ m : DirMeta, d = dirDoc parent m
  | [], h => by simp [emitDirDocs] at h
  | FSEntry.file f :: rest, h => by
      rw [emitDirDocs] at h
      exact mem_emitDirDocs_mono h
  | FSEntry.dir m cs :: rest, h => by
      rw [emitDirDocs] at h
      by_cases hig : cfg.ignore (childPath parent m.name) = true
      · rw [if_pos hig] at h
        exact mem_emitDirDocs_mono h
      · rw [if_neg hig] at h
        by_cases hst : m.statFails = true
        · rw [if_pos hst] at h
          simp at h
        · rw [if_neg hst] at h
          rcases List.mem_cons.mp h with h | h
          · exact ⟨m, h⟩
          · exact mem_emitDirDocs_mono h

theorem mem_emitDirDocs_path {cfg : ScanCfg} {parent : String} {d : Doc} {es : List FSEntry}
    (h : d ∈ (emitDirDocs cfg parent es).fst) :
    strStartsWith (parent ++ "/") d.path = true := by
  obtain ⟨m, rfl⟩ := mem_emitDirDocs_mono h
  exact strStartsWith_childPath parent m.name

theorem mem_emitFileDocs_path {cfg : ScanCfg} {parent : String} {d : Doc} :
    ∀ {es : List FSEntry}, d ∈ emitFileDocs cfg parent es →
      strStartsWith (parent ++ "/") d.path = true
  | [], h => by cases h
  | FSEntry.file f :: rest, h => by
      rw [emitFileDocs] at h
      by_cases hig : cfg.ignore (childPath parent f.name) = true
      · rw [if_pos hig] at h
        exact mem_emitFileDocs_path h
      · rw [if_neg hig] at h
        by_cases hst : f.statFails = true
        · rw [if_pos hst] at h
          exact mem_emitFileDocs_path h
        · rw [if_neg hst] at h
          rcases List.mem_cons.mp h with rfl | h2
          · exact strStartsWith_childPath parent f.name
          · exact mem_emitFileDocs_path h2
  | FSEntry.dir m cs :: rest, h => by
      rw [emitFileDocs] at h
      exact mem_emitFileDocs_path h

/-- Every document yielded anywhere in the walk has a path strictly under the
directory whose level it belongs to. -/
theorem walkLevel_path {cfg : ScanCfg} (parent : String) (entries : List FSEntry) :
    ∀ d ∈ (walkLevel cfg parent entries).fst, strStartsWith (parent ++ "/") d.path = true := by
  induction parent, entries using walkLevel.induct cfg _
    (fun parent entries =>
      ∀ d ∈ (recurseDirs cfg parent entries).fst, strStartsWith (parent ++ "/") d.path = true)
      with
  | case1 parent entries ds hemit =>
      intro d hd
      rw [walkLevel, hemit] at hd
      exact @mem_emitDirDocs_path cfg parent d entries (by rw [hemit]; exact hd)
  | case2 parent entries ds hemit ds2 ab hrec ih =>
      intro d hd
      rw [walkLevel, hemit, hrec] at hd
      simp only [List.mem_append] at hd
      rcases hd with (hd | hd) | hd
      · exact @mem_emitDirDocs_path cfg parent d entries (by rw [hemit]; exact hd)
      · exact mem_emitFileDocs_path hd
      · exact ih d (by rw [hrec]; exact hd)
  | case3 parent d hd =>
      simp [recurseDirs] at hd
  | case4 parent f rest ih d hd =>
      rw [recurseDirs] at hd
      exact ih d hd
  | case5 parent m cs rest hig ih d hd =>
      rw [recurseDirs, if_pos hig] at hd
      exact ih d hd
  | case6 parent m cs rest hig ds hsub ih d hd =>
      rw [dite_eq_ite] at hsub
      rw [recurseDirs, if_neg hig, hsub] at hd
      by_cases hlf : m.listFails = true
      · rw [if_pos hlf] at hsub; cases hsub
      · rw [if_neg hlf] at hsub
        exact strStartsWith_sep_trans m.name (ih d (by rw [hsub]; exact hd))
  | case7 parent m cs rest hig ds hsub ds2 ab hrec ih1 ih2 d hd =>
      rw [dite_eq_ite] at hsub
      rw [recurseDirs, if_neg hig, hsub, hrec] at hd
      simp only [List.mem_append] at hd
      rcases hd with hd | hd
      · by_cases hlf : m.listFails = true
        · rw [if_pos hlf] at hsub; cases hsub; simp at hd
        · rw [if_neg hlf] at hsub
          exact strStartsWith_sep_trans m.name (ih1 d (by rw [hsub]; exact hd))
      · exact ih2 d (by rw [hrec]; exact hd)

theorem scan_directory_path {cfg : ScanCfg} {root : String} {lf : Bool} {cs : List FSEntry}
    {d : Doc} (h : d ∈ scan_directory cfg root lf cs) :
    strStartsWith (root ++ "/") d.path = true := by
  rw [scan_directory] at h
  by_cases hlf : lf = true
  · rw [if_pos hlf] at h; cases h
  · rw [if_neg hlf] at h
    exact walkLevel_path root cs d h

theorem scan_directory_path_ne {cfg : ScanCfg} {root : String} {lf : Bool} {cs : List FSEntry}
    {d : Doc} (h : d ∈ scan_directory cfg root lf cs) : d.path ≠ root :=
  ne_of_strStartsWith (scan_directory_path h)

/-! Helper lemmas about `remove_directory` and `index_directory`. -/

/-- Predicate form of the removal criteria of `remove_directory`: exact
`dirname` match, exact `path` match, or `path` prefixed by the root plus
separator. -/
def matchesRemoval (root : String) (d : Doc) : Bool :=
  d.dirname == root || d.path == root || strStartsWith (root ++ "/") d.path

theorem mem_removalPaths {s : Store} {root x : String} :
    x ∈ removalPaths s root ↔ ∃ d, d ∈ s ∧ d.path = x ∧ matchesRemoval root d = true := by
  simp only [removalPaths, dirnameMatches, pathMatches, subtreeMatches, matchesRemoval,
    List.mem_append, List.mem_map, List.mem_filter, Bool.or_eq_true, beq_iff_eq]
  constructor
  · rintro ((⟨d, ⟨hm, hc⟩, rfl⟩ | ⟨d, ⟨hm, hc⟩, rfl⟩) | ⟨d, ⟨hm, hc⟩, rfl⟩)
    · exact ⟨d, hm, rfl, Or.inl (Or.inl hc)⟩
    · exact ⟨d, hm, rfl, Or.inl (Or.inr hc)⟩
    · exact ⟨d, hm, rfl, Or.inr hc⟩
  · rintro ⟨d, hm, rfl, ((hc | hc) | hc)⟩
    · exact Or.inl (Or.inl ⟨d, ⟨hm, hc⟩, rfl⟩)
    · exact Or.inl (Or.inr ⟨d, ⟨hm, hc⟩, rfl⟩)
    · exact Or.inr ⟨d, ⟨hm, hc⟩, rfl⟩

theorem foldl_delete_fst : ∀ (ps : List String) (s0 : Store) (n0 : Nat),
    ((ps.foldl (fun acc p => (deleteByTerm acc.fst p, acc.snd + 1)) (s0, n0)).fst)
      = s0.filter (fun d => !ps.contains d.path)
  | [], s0, n0 => by simp
  | p :: ps, s0, n0 => by
      rw [List.foldl_cons, foldl_delete_fst ps _ (n0 + 1)]
      show (s0.filter fun d => d.path != p).filter (fun d => !ps.contains d.path) = _
      rw [List.filter_filter]
      apply List.filter_congr
      intro d _
      show (!ps.contains d.path && (d.path != p)) = !((p :: ps).contains d.path)
      rw [List.contains_cons, Bool.not_or, Bool.and_comm]
      rfl

theorem foldl_delete_snd : ∀ (ps : List String) (s0 : Store) (n0 : Nat),
    ((ps.foldl (fun acc p => (deleteByTerm acc.fst p, acc.snd + 1)) (s0, n0)).snd)
      = n0 + ps.length
  | [], s0, n0 => by simp
  | p :: ps, s0, n0 => by
      rw [List.foldl_cons, foldl_delete_snd ps _ (n0 + 1), List.length_cons]
      omega

theorem remove_directory_fst (s : Store) (root : String) :
    (remove_directory s root).fst = s.filter (fun d => !(removalPaths s root).contains d.path) :=
  foldl_delete_fst (removalPaths s root) s 0

theorem remove_directory_snd (s : Store) (root : String) :
    (remove_directory s root).snd = (removalPaths s root).length := by
  rw [remove_directory, foldl_delete_snd]
  omega

theorem contains_removalPaths_of_matches {s : Store} {root : String} {d : Doc}
    (hd : d ∈ s) (hm : matchesRemoval root d = true) :
    (removalPaths s root).contains d.path = true :=
  List.elem_iff.mpr (mem_removalPaths.mpr ⟨d, hd, rfl, hm⟩)

/-- With unique committed paths (spec section 3 invariant), `remove_directory`
keeps exactly the documents matching none of the three criteria. -/
theorem remove_directory_filter_eq (s : Store) (root : String)
    (h : (s.map Doc.path).Nodup) :
    (remove_directory s root).fst = s.filter (fun d => !matchesRemoval root d) := by
  rw [remove_directory_fst]
  apply List.filter_congr
  intro d hd
  by_cases hm : matchesRemoval root d = true
  · rw [hm, contains_removalPaths_of_matches hd hm]
  · rw [Bool.not_eq_true] at hm
    rw [hm]
    have : ¬ (removalPaths s root).contains d.path = true := by
      intro hc
      obtain ⟨d2, hd2, hpeq, hm2⟩ := mem_removalPaths.mp (List.elem_iff.mp hc)
      have : d2 = d := List.inj_on_of_nodup_map h hd2 hd hpeq
      subst this
      rw [hm2] at hm
      cases hm
    rw [Bool.not_eq_true] at this
    rw [this]

theorem matchesRemoval_of_scanned {cfg : ScanCfg} {root : String} {lf : Bool}
    {cs : List FSEntry} {d : Doc} (h : d ∈ scan_directory cfg root lf cs) :
    matchesRemoval root d = true := by
  rw [matchesRemoval, scan_directory_path h]
  simp

/-- Re-running `index_directory` on an unchanged store and filesystem is a
fixed point: the pre-removal phase deletes exactly the documents the previous
run staged, and the scan re-stages the same documents in the same order. -/
theorem index_directory_fixed_point (cfg : ScanCfg) (s : Store) (root : String)
    (lf : Bool) (cs : List FSEntry) :
    index_directory cfg ((index_directory cfg s root lf cs).fst) root lf cs
      = index_directory cfg s root lf cs := by
  show ((remove_directory ((remove_directory s root).fst
      ++ scan_directory cfg root lf cs) root).fst ++ scan_directory cfg root lf cs, _) = _
  have hrm : (remove_directory ((remove_directory s root).fst
      ++ scan_directory cfg root lf cs) root).fst = (remove_directory s root).fst := by
    set docs := scan_directory cfg root lf cs with hdocs
    set s1 := (remove_directory s root).fst ++ docs with hs1
    rw [remove_directory_fst, hs1, List.filter_append]
    have hkeep : ((remove_directory s root).fst.filter
        (fun d => !(removalPaths s1 root).contains d.path)) = (remove_directory s root).fst := by
      apply List.filter_eq_self.mpr
      intro d hd
      rw [remove_directory_fst, List.mem_filter] at hd
      obtain ⟨hds, hnc⟩ := hd
      rw [Bool.not_eq_eq_eq_not, Bool.not_true] at hnc
      rw [Bool.not_eq_eq_eq_not, Bool.not_true]
      by_contra hc
      rw [Bool.not_eq_false] at hc
      obtain ⟨d2, hd2, hpeq, hm2⟩ := mem_removalPaths.mp (List.elem_iff.mp hc)
      rw [hs1, List.mem_append] at hd2
      rcases hd2 with hd2 | hd2
      · rw [remove_directory_fst, List.mem_filter] at hd2
        have := @contains_removalPaths_of_matches s root d2 hd2.1 hm2
        rw [← hpeq] at hnc
        rw [this] at hnc
        cases hnc
      · have hpre : strStartsWith (root ++ "/") d.path = true := by
          rw [← hpeq]
          exact scan_directory_path (hdocs ▸ hd2)
        have hm : matchesRemoval root d = true := by
          rw [matchesRemoval, hpre]; simp
        have := contains_removalPaths_of_matches hds hm
        rw [this] at hnc
        cases hnc
    have hdrop : (docs.filter (fun d => !(removalPaths s1 root).contains d.path)) = [] := by
      apply List.filter_eq_nil_iff.mpr
      intro d hd
      have hm : matchesRemoval root d = true := matchesRemoval_of_scanned (hdocs ▸ hd)
      have hmem : d ∈ s1 := by rw [hs1, List.mem_append]; exact Or.inr hd
      rw [contains_removalPaths_of_matches hmem hm]
      simp
    rw [hkeep, hdrop, List.append_nil]
  rw [hrm]
  rfl

/-! Helper lemmas about lexicographic string order, sorting, and rebuild. -/

theorem charListLe_append_cons : ∀ (xs : List Char) (y : Char) (ys : List Char),
    charListLe (xs ++ y :: ys) xs = false
  | [], _, _ => rfl
  | a :: as, y, ys => by
      show charListLe (a :: (as ++ y :: ys)) (a :: as) = false
      simp only [charListLe]
      rw [if_neg (Char.lt_irrefl a), if_neg (Char.lt_irrefl a)]
      exact charListLe_append_cons as y ys

theorem charListLe_total : ∀ (as bs : List Char),
    charListLe as bs = true ∨ charListLe bs as = true
  | [], _ => Or.inl rfl
  | _ :: _, [] => Or.inr rfl
  | a :: as, b :: bs => by
      simp only [charListLe]
      rcases lt_trichotomy a b with h | h | h
      · left; rw [if_pos h]
      · subst h
        rcases charListLe_total as bs with h2 | h2
        · left
          rw [if_neg (Char.lt_irrefl a), if_neg (Char.lt_irrefl a)]
          exact h2
        · right
          rw [if_neg (Char.lt_irrefl a), if_neg (Char.lt_irrefl a)]
          exact h2
      · right; rw [if_pos h]

theorem charListLe_trans : ∀ {as bs cs : List Char},
    charListLe as bs = true → charListLe bs cs = true → charListLe as cs = true
  | [], _, _, _, _ => rfl
  | _ :: _, [], _, h1, _ => by cases h1
  | _ :: _, _ :: _, [], _, h2 => by cases h2
  | a :: as, b :: bs, c :: cs, h1, h2 => by
      simp only [charListLe] at h1 h2 ⊢
      by_cases hab : a < b
      · by_cases hbc : b < c
        · rw [if_pos (lt_trans hab hbc)]
        · by_cases hcb : c < b
          · rw [if_neg hbc, if_pos hcb] at h2; cases h2
          · have hbceq : b = c := le_antisymm (not_lt.mp hcb) (not_lt.mp hbc)
            subst hbceq
            rw [if_pos hab]
      · by_cases hba : b < a
        · rw [if_neg hab, if_pos hba] at h1; cases h1
        · have habeq : a = b := le_antisymm (not_lt.mp hba) (not_lt.mp hab)
          subst habeq
          rw [if_neg hab, if_neg hba] at h1
          by_cases hac : a < c
          · rw [if_pos hac]
          · by_cases hca : c < a
            · rw [if_neg hac, if_pos hca] at h2; cases h2
            · rw [if_neg hac, if_neg hca] at h2
              rw [if_neg hac, if_neg hca]
              exact charListLe_trans h1 h2

theorem strLe_trans {a b c : String} (h1 : strLe a b = true) (h2 : strLe b c = true) :
    strLe a c = true := charListLe_trans h1 h2

theorem strLe_total (a b : String) : strLe a b = true ∨ strLe b a = true :=
  charListLe_total a.data b.data

theorem mem_insertSorted {a x : String} : ∀ {l : List String},
    x ∈ insertSorted a l ↔ x = a ∨ x ∈ l
  | [] => by simp [insertSorted]
  | b :: bs => by
      rw [insertSorted]
      by_cases h : strLe a b = true
      · rw [if_pos h]
        simp [List.mem_cons]
      · rw [if_neg h, List.mem_cons, List.mem_cons, mem_insertSorted]
        tauto

theorem pairwise_insertSorted {a : String} : ∀ {l : List String},
    l.Pairwise (fun x y => strLe x y = true) →
      (insertSorted a l).Pairwise (fun x y => strLe x y = true)
  | [], _ => by simp [insertSorted]
  | b :: bs, h => by
      rw [insertSorted]
      rcases List.pairwise_cons.mp h with ⟨hb, hbs⟩
      by_cases hab : strLe a b = true
      · rw [if_pos hab]
        refine List.pairwise_cons.mpr ⟨?_, h⟩
        intro x hx
        rcases List.mem_cons.mp hx with rfl | hx
        · exact hab
        · exact strLe_trans hab (hb x hx)
      · rw [if_neg hab]
        refine List.pairwise_cons.mpr ⟨?_, pairwise_insertSorted hbs⟩
        intro x hx
        rcases mem_insertSorted.mp hx with rfl | hx
        · rcases strLe_total x b with h1 | h1
          · exact absurd h1 hab
          · exact h1
        · exact hb x hx

theorem sortStrs_pairwise : ∀ (l : List String),
    (sortStrs l).Pairwise (fun x y => strLe x y = true)
  | [] => List.Pairwise.nil
  | _ :: as => pairwise_insertSorted (sortStrs_pairwise as)

/-- After `index_directory` on `root`, no committed document has path `root`:
the pre-removal phase deletes the exact-path entry and the scan only emits
documents strictly under `root`. -/
theorem index_directory_no_root_doc (cfg : ScanCfg) (s : Store) (root : String)
    (lf : Bool) (cs : List FSEntry) :
    ∀ d ∈ (index_directory cfg s root lf cs).fst, d.path ≠ root := by
  intro d hd heq
  have hd2 : d ∈ (remove_directory s root).fst ++ scan_directory cfg root lf cs := hd
  rcases List.mem_append.mp hd2 with hd3 | hd3
  · rw [remove_directory_fst, List.mem_filter] at hd3
    obtain ⟨hds, hnc⟩ := hd3
    have hm : matchesRemoval root d = true := by
      rw [matchesRemoval, heq]
      simp
    rw [contains_removalPaths_of_matches hds hm] at hnc
    cases hnc
  · exact scan_directory_path_ne hd3 heq

theorem rebuildStep_skips {cfg : ScanCfg} {fs : FileSystem} {r : String}
    (h : resolveDir fs r = none) (acc : Store × Nat) : rebuildStep cfg fs acc r = acc := by
  rw [rebuildStep, h]

theorem rebuildStep_preserves_no_root_doc (cfg : ScanCfg) (fs : FileSystem)
    {r r2 : String} (hle : strLe r r2 = true) {acc : Store × Nat}
    (h : ∀ d ∈ acc.fst, d.path ≠ r) :
    ∀ d ∈ (rebuildStep cfg fs acc r2).fst, d.path ≠ r := by
  intro d hd
  rw [rebuildStep] at hd
  cases hres : resolveDir fs r2 with
  | none => rw [hres] at hd; exact h d hd
  | some x =>
      obtain ⟨lf, cs⟩ := x
      rw [hres] at hd
      have hd2 : d ∈ (remove_directory acc.fst r2).fst ++ scan_directory cfg r2 lf cs := hd
      rcases List.mem_append.mp hd2 with hd3 | hd3
      · rw [remove_directory_fst, List.mem_filter] at hd3
        exact h d hd3.1
      · intro heq
        have hp := scan_directory_path hd3
        rw [strStartsWith_iff, sep_data] at hp
        obtain ⟨rest, hrest⟩ := hp
        rw [heq] at hrest
        have hfalse : strLe r r2 = false := by
          rw [strLe, ← hrest, List.append_assoc]
          exact charListLe_append_cons r2.data '/' rest
        rw [hle] at hfalse
        cases hfalse

theorem foldl_rebuild_preserves (cfg : ScanCfg) (fs : FileSystem) :
    ∀ (l : List String) (acc : Store × Nat) (r : String),
    (∀ d ∈ acc.fst, d.path ≠ r) → (∀ r2 ∈ l, strLe r r2 = true) →
    ∀ d ∈ (l.foldl (rebuildStep cfg fs) acc).fst, d.path ≠ r
  | [], _, _, h, _ => h
  | r2 :: l, acc, r, h, hall => by
      rw [List.foldl_cons]
      exact foldl_rebuild_preserves cfg fs l _ r
        (rebuildStep_preserves_no_root_doc cfg fs (hall r2 (List.mem_cons_self _ _)) h)
        (fun x hx => hall x (List.mem_cons_of_mem _ hx))

theorem foldl_rebuild_processed (cfg : ScanCfg) (fs : FileSystem) :
    ∀ (l : List String) (acc : Store × Nat) (r : String) (x : Bool × List FSEntry),
    r ∈ l → l.Pairwise (fun a b => strLe a b = true) → resolveDir fs r = some x →
    ∀ d ∈ (l.foldl (rebuildStep cfg fs) acc).fst, d.path ≠ r
  | [], _, _, _, hmem, _, _ => absurd hmem (List.not_mem_nil _)
  | r2 :: l, acc, r, x, hmem, hpw, hres => by
      rw [List.foldl_cons]
      rcases List.mem_cons.mp hmem with rfl | hmem2
      · apply foldl_rebuild_preserves cfg fs l _ r
        · intro d hd
          obtain ⟨lf, cs⟩ := x
          rw [rebuildStep, hres] at hd
          exact index_directory_no_root_doc cfg acc.fst r lf cs d hd
        · exact fun x2 hx2 => (List.pairwise_cons.mp hpw).1 x2 hx2
      · exact foldl_rebuild_processed cfg fs l _ r x hmem2 (List.pairwise_cons.mp hpw).2 hres

/-- After a rebuild, no derived root that still existed on disk has its own
document in the store: its re-index deletes the exact-path entry and the
scan never re-emits the root, and every later root in the sorted order is
lexicographically larger, hence not an ancestor that could re-stage it. -/
theorem rebuild_index_no_derived_root_doc (cfg : ScanCfg) (fs : FileSystem) (s : Store)
    (r : String) (x : Bool × List FSEntry)
    (hmem : r ∈ get_indexed_directories s) (hres : resolveDir fs r = some x) :
    ∀ d ∈ (rebuild_index cfg fs s).fst, d.path ≠ r := by
  rw [rebuild_index]
  exact foldl_rebuild_processed cfg fs _ _ r x hmem (sortStrs_pairwise _) hres

/-! Helper lemmas for the error-handling behaviour of the walk. -/

/-- A file entry whose `stat()` fails. -/
def isFailedFile : FSEntry → Bool
  | FSEntry.file f => f.statFails
  | FSEntry.dir _ _ => false

theorem emitDirDocs_filter_files (cfg : ScanCfg) (parent : String) : ∀ (es : List FSEntry),
    emitDirDocs cfg parent (es.filter (fun e => !isFailedFile e)) = emitDirDocs cfg parent es
  | [] => rfl
  | FSEntry.file f :: rest => by
      rw [List.filter_cons]
      by_cases h : f.statFails = true
      · rw [if_neg (by simp [isFailedFile, h])]
        rw [emitDirDocs]
        exact emitDirDocs_filter_files cfg parent rest
      · rw [if_pos (by simp [isFailedFile, Bool.not_eq_true] at h ⊢; rw [h])]
        rw [emitDirDocs, emitDirDocs]
        exact emitDirDocs_filter_files cfg parent rest
  | FSEntry.dir m cs :: rest => by
      rw [List.filter_cons, if_pos (by simp [isFailedFile])]
      rw [emitDirDocs, emitDirDocs, emitDirDocs_filter_files cfg parent rest]

theorem emitFileDocs_filter_files (cfg : ScanCfg) (parent : String) : ∀ (es : List FSEntry),
    emitFileDocs cfg parent (es.filter (fun e => !isFailedFile e)) = emitFileDocs cfg parent es
  | [] => rfl
  | FSEntry.file f :: rest => by
      rw [List.filter_cons]
      by_cases h : f.statFails = true
      · rw [if_neg (by simp [isFailedFile, h])]
        rw [emitFileDocs_filter_files cfg parent rest]
        rw [emitFileDocs]
        by_cases hig : cfg.ignore (childPath parent f.name) = true
        · rw [if_pos hig]
        · rw [if_neg hig, if_pos h]
      · rw [if_pos (by simp [isFailedFile, Bool.not_eq_true] at h ⊢; rw [h])]
        rw [emitFileDocs, emitFileDocs, emitFileDocs_filter_files cfg parent rest]
  | FSEntry.dir m cs :: rest => by
      rw [List.filter_cons, if_pos (by simp [isFailedFile])]
      rw [emitFileDocs, emitFileDocs, emitFileDocs_filter_files cfg parent rest]

theorem recurseDirs_filter_files (cfg : ScanCfg) (parent : String) : ∀ (es : List FSEntry),
    recurseDirs cfg parent (es.filter (fun e => !isFailedFile e)) = recurseDirs cfg parent es
  | [] => rfl
  | FSEntry.file f :: rest => by
      rw [List.filter_cons]
      by_cases h : f.statFails = true
      · rw [if_neg (by simp [isFailedFile, h])]
        rw [recurseDirs]
        exact recurseDirs_filter_files cfg parent rest
      · rw [if_pos (by simp [isFailedFile, Bool.not_eq_true] at h ⊢; rw [h])]
        rw [recurseDirs, recurseDirs]
        exact recurseDirs_filter_files cfg parent rest
  | FSEntry.dir m cs :: rest => by
      rw [List.filter_cons, if_pos (by simp [isFailedFile])]
      rw [recurseDirs, recurseDirs, recurseDirs_filter_files cfg parent rest]

/-- Files whose `stat()` fails behave exactly as if they were absent from the
listing: only that entry is skipped. -/
theorem walkLevel_filter_files (cfg : ScanCfg) (parent : String) (es : List FSEntry) :
    walkLevel cfg parent (es.filter (fun e => !isFailedFile e)) = walkLevel cfg parent es := by
  rw [walkLevel, walkLevel, emitDirDocs_filter_files, emitFileDocs_filter_files,
    recurseDirs_filter_files]

theorem emitDirDocs_children_irrel (cfg : ScanCfg) (parent : String) (m : DirMeta)
    (cs cs2 post : List FSEntry) : ∀ (pre : List FSEntry),
    emitDirDocs cfg parent (pre ++ FSEntry.dir m cs :: post)
      = emitDirDocs cfg parent (pre ++ FSEntry.dir m cs2 :: post)
  | [] => by
      rw [List.nil_append, List.nil_append, emitDirDocs, emitDirDocs]
  | FSEntry.file f :: pre => by
      rw [List.cons_append, List.cons_append, emitDirDocs, emitDirDocs]
      exact emitDirDocs_children_irrel cfg parent m cs cs2 post pre
  | FSEntry.dir m2 cs3 :: pre => by
      rw [List.cons_append, List.cons_append, emitDirDocs, emitDirDocs,
        emitDirDocs_children_irrel cfg parent m cs cs2 post pre]

theorem emitFileDocs_children_irrel (cfg : ScanCfg) (parent : String) (m : DirMeta)
    (cs cs2 post : List FSEntry) : ∀ (pre : List FSEntry),
    emitFileDocs cfg parent (pre ++ FSEntry.dir m cs :: post)
      = emitFileDocs cfg parent (pre ++ FSEntry.dir m cs2 :: post)
  | [] => by
      rw [List.nil_append, List.nil_append, emitFileDocs, emitFileDocs]
  | FSEntry.file f :: pre => by
      rw [List.cons_append, List.cons_append, emitFileDocs, emitFileDocs,
        emitFileDocs_children_irrel cfg parent m cs cs2 post pre]
  | FSEntry.dir m2 cs3 :: pre => by
      rw [List.cons_append, List.cons_append, emitFileDocs, emitFileDocs,
        emitFileDocs_children_irrel cfg parent m cs cs2 post pre]

theorem recurseDirs_listFails (cfg : ScanCfg) (parent : String) (m : DirMeta)
    (hlf : m.listFails = true) (cs post : List FSEntry) : ∀ (pre : List FSEntry),
    recurseDirs cfg parent (pre ++ FSEntry.dir m cs :: post)
      = recurseDirs cfg parent (pre ++ FSEntry.dir m [] :: post)
  | [] => by
      rw [List.nil_append, List.nil_append, recurseDirs, recurseDirs, if_pos hlf, if_pos hlf]
  | FSEntry.file f :: pre => by
      rw [List.cons_append, List.cons_append, recurseDirs, recurseDirs]
      exact recurseDirs_listFails cfg parent m hlf cs post pre
  | FSEntry.dir m2 cs3 :: pre => by
      rw [List.cons_append, List.cons_append, recurseDirs, recurseDirs,
        recurseDirs_listFails cfg parent m hlf cs post pre]

/-- A directory whose child enumeration fails contributes its own document but
nothing from its subtree, and the walk continues with its siblings: the walk
is the same as if the directory were empty. -/
theorem walkLevel_listFails (cfg : ScanCfg) (parent : String) (m : DirMeta)
    (hlf : m.listFails = true) (pre cs post : List FSEntry) :
    walkLevel cfg parent (pre ++ FSEntry.dir m cs :: post)
      = walkLevel cfg parent (pre ++ FSEntry.dir m [] :: post) := by
  rw [walkLevel, walkLevel, emitDirDocs_children_irrel cfg parent m cs [] post pre,
    emitFileDocs_children_irrel cfg parent m cs [] post pre,
    recurseDirs_listFails cfg parent m hlf cs post pre]

theorem emitDirDocs_append_abort (cfg : ScanCfg) (parent : String) (m : DirMeta)
    (cs post : List FSEntry) (hst : m.statFails = true)
    (hig : cfg.ignore (childPath parent m.name) = false) :
    ∀ (pre : List FSEntry) (ds : List Doc), emitDirDocs cfg parent pre = (ds, false) →
      emitDirDocs cfg parent (pre ++ FSEntry.dir m cs :: post) = (ds, true)
  | [], ds, h => by
      cases h
      rw [List.nil_append, emitDirDocs, if_neg (by rw [hig]; intro hc; cases hc), if_pos hst]
  | FSEntry.file f :: pre, ds, h => by
      rw [emitDirDocs] at h
      rw [List.cons_append, emitDirDocs]
      exact emitDirDocs_append_abort cfg parent m cs post hst hig pre ds h
  | FSEntry.dir m2 cs2 :: pre, ds, h => by
      rw [emitDirDocs] at h
      rw [List.cons_append, emitDirDocs]
      by_cases hig2 : cfg.ignore (childPath parent m2.name) = true
      · rw [if_pos hig2] at h
        rw [if_pos hig2]
        exact emitDirDocs_append_abort cfg parent m cs post hst hig pre ds h
      · rw [if_neg hig2] at h
        rw [if_neg hig2]
        by_cases hst2 : m2.statFails = true
        · rw [if_pos hst2] at h
          cases h
        · rw [if_neg hst2] at h
          rw [if_neg hst2]
          cases hpre : emitDirDocs cfg parent pre with
          | mk ds2 ab2 =>
              rw [hpre] at h
              cases h
              rw [emitDirDocs_append_abort cfg parent m cs post hst hig pre ds2 hpre]

/-- A `stat()` failure on a directory entry aborts the whole remaining walk:
only the sibling directory documents emitted before it survive — no file of
the level, no later sibling, and no subtree is emitted at all. -/
theorem walkLevel_dir_stat_abort (cfg : ScanCfg) (parent : String) (m : DirMeta)
    (pre cs post : List FSEntry) (ds : List Doc) (hst : m.statFails = true)
    (hig : cfg.ignore (childPath parent m.name) = false)
    (hpre : emitDirDocs cfg parent pre = (ds, false)) :
    walkLevel cfg parent (pre ++ FSEntry.dir m cs :: post) = (ds, true) := by
  rw [walkLevel, emitDirDocs_append_abort cfg parent m cs post hst hig pre ds hpre]

/-! Helper lemmas: the walk consults the ignore predicate only on paths
strictly under the current directory, and never on the root itself. -/

theorem emitDirDocs_ignore_congr (cfg cfg2 : ScanCfg) (parent : String) :
    ∀ (es : List FSEntry),
    (∀ p, strStartsWith (parent ++ "/") p = true → cfg2.ignore p = cfg.ignore p) →
      emitDirDocs cfg2 parent es = emitDirDocs cfg parent es
  | [], _ => rfl
  | FSEntry.file f :: rest, hagree => by
      rw [emitDirDocs, emitDirDocs]
      exact emitDirDocs_ignore_congr cfg cfg2 parent rest hagree
  | FSEntry.dir m cs :: rest, hagree => by
      rw [emitDirDocs, emitDirDocs,
        hagree (childPath parent m.name) (strStartsWith_childPath parent m.name),
        emitDirDocs_ignore_congr cfg cfg2 parent rest hagree]

theorem emitFileDocs_ignore_congr (cfg cfg2 : ScanCfg) (parent : String)
    (hcap : cfg2.cap = cfg.cap) : ∀ (es : List FSEntry),
    (∀ p, strStartsWith (parent ++ "/") p = true → cfg2.ignore p = cfg.ignore p) →
      emitFileDocs cfg2 parent es = emitFileDocs cfg parent es
  | [], _ => rfl
  | FSEntry.file f :: rest, hagree => by
      rw [emitFileDocs, emitFileDocs,
        hagree (childPath parent f.name) (strStartsWith_childPath parent f.name),
        hcap, emitFileDocs_ignore_congr cfg cfg2 parent hcap rest hagree]
  | FSEntry.dir m cs :: rest, hagree => by
      rw [emitFileDocs, emitFileDocs]
      exact emitFileDocs_ignore_congr cfg cfg2 parent hcap rest hagree

theorem walkLevel_ignore_congr (cfg : ScanCfg) (parent : String) (entries : List FSEntry) :
    ∀ (cfg2 : ScanCfg), cfg2.cap = cfg.cap →
      (∀ p, strStartsWith (parent ++ "/") p = true → cfg2.ignore p = cfg.ignore p) →
      walkLevel cfg2 parent entries = walkLevel cfg parent entries := by
  induction parent, entries using walkLevel.induct cfg _
    (fun parent entries => ∀ (cfg2 : ScanCfg), cfg2.cap = cfg.cap →
      (∀ p, strStartsWith (parent ++ "/") p = true → cfg2.ignore p = cfg.ignore p) →
      recurseDirs cfg2 parent entries = recurseDirs cfg parent entries) with
  | case1 parent entries ds hemit =>
      intro cfg2 hcap hagree
      rw [walkLevel, walkLevel, emitDirDocs_ignore_congr cfg cfg2 parent entries hagree, hemit]
  | case2 parent entries ds hemit ds2 ab hrec ih =>
      intro cfg2 hcap hagree
      rw [walkLevel, walkLevel, emitDirDocs_ignore_congr cfg cfg2 parent entries hagree, hemit,
        emitFileDocs_ignore_congr cfg cfg2 parent hcap entries hagree, ih cfg2 hcap hagree]
  | case3 parent cfg2 hcap hagree =>
      rw [recurseDirs, recurseDirs]
  | case4 parent f rest ih cfg2 hcap hagree =>
      rw [recurseDirs, recurseDirs]
      exact ih cfg2 hcap hagree
  | case5 parent m cs rest hig ih cfg2 hcap hagree =>
      rw [recurseDirs, recurseDirs,
        hagree (childPath parent m.name) (strStartsWith_childPath parent m.name), if_pos hig,
        if_pos hig]
      exact ih cfg2 hcap hagree
  | case6 parent m cs rest hig ds hsub ih cfg2 hcap hagree =>
      rw [dite_eq_ite] at hsub
      have hsubagree : ∀ p, strStartsWith (childPath parent m.name ++ "/") p = true →
          cfg2.ignore p = cfg.ignore p :=
        fun p hp => hagree p (strStartsWith_sep_trans m.name hp)
      rw [recurseDirs, recurseDirs,
        hagree (childPath parent m.name) (strStartsWith_childPath parent m.name), if_neg hig,
        if_neg hig, ih cfg2 hcap hsubagree, hsub]
  | case7 parent m cs rest hig ds hsub ds2 ab hrec ih1 ih2 cfg2 hcap hagree =>
      rw [dite_eq_ite] at hsub
      have hsubagree : ∀ p, strStartsWith (childPath parent m.name ++ "/") p = true →
          cfg2.ignore p = cfg.ignore p :=
        fun p hp => hagree p (strStartsWith_sep_trans m.name hp)
      rw [recurseDirs, recurseDirs,
        hagree (childPath parent m.name) (strStartsWith_childPath parent m.name), if_neg hig,
        if_neg hig, ih1 cfg2 hcap hsubagree, hsub, ih2 cfg2 hcap hagree]

/-- The scan of a root is unchanged when the ignore predicate is modified at
the root path alone: the walk never applies the filter to the root. -/
theorem scan_directory_ignore_congr (cfg cfg2 : ScanCfg) (root : String) (lf : Bool)
    (cs : List FSEntry) (hcap : cfg2.cap = cfg.cap)
    (hagree : ∀ p, p ≠ root → cfg2.ignore p = cfg.ignore p) :
    scan_directory cfg2 root lf cs = scan_directory cfg root lf cs := by
  rw [scan_directory, scan_directory]
  by_cases hlf : lf = true
  · rw [if_pos hlf, if_pos hlf]
  · rw [if_neg hlf, if_neg hlf,
      walkLevel_ignore_congr cfg root cs cfg2 hcap
        (fun p hp => hagree p (ne_of_strStartsWith hp))]

/-! Concrete fixtures used by counterexamples and witnesses. -/

/-- Configuration with an empty ignore list, hidden files included, and the
default 10 MB content cap. -/
def cfg0 : ScanCfg := ⟨fun _ => false, 10⟩

/-- A healthy small text file `a.txt`. -/
def fA : FileMeta := ⟨"a.txt", 5, 100, "hello", false, false⟩

/-- A healthy file `f` inside the subdirectory. -/
def fF : FileMeta := ⟨"f", 3, 200, "zzz", false, false⟩

/-- A healthy subdirectory `s`. -/
def dS : DirMeta := ⟨"s", 150, false, false⟩

/-- A directory whose `stat()` fails. -/
def dBad : DirMeta := ⟨"bad", 1, true, false⟩

/-- A healthy directory listed after the failing one. -/
def dGood : DirMeta := ⟨"good", 2, false, false⟩

/-- A file whose `stat()` fails. -/
def fBadStat : FileMeta := ⟨"b.txt", 7, 3, "data", true, false⟩

/-- Children of the example root `/r`: the file `a.txt` and the subdirectory
`s` containing the file `f`. -/
def exChildren : List FSEntry := [FSEntry.file fA, FSEntry.dir dS [FSEntry.file fF]]

/-- On-disk view for the rebuild example: `/r` and `/r/s` both exist. -/
def exFS : FileSystem := ⟨[("/r", (false, exChildren)), ("/r/s", (false, [FSEntry.file fF]))]⟩

/-- A committed document that is a direct child of `/r`: it matches both the
`dirname` criterion and the path-prefix criterion of `remove_directory`. -/
def exChildDoc : Doc := ⟨"/r/a", "a", "/r", "", "", 1, 0, "false", ""⟩

/-! Evaluation lemmas for the fixtures (the walk is defined by well-founded
recursion, so concrete scans are evaluated with its equation lemmas). -/

theorem recurseDirs_s_eval : recurseDirs cfg0 (childPath "/r" dS.name) [FSEntry.file fF]
    = ([], false) := by
  rw [recurseDirs, recurseDirs]

theorem walkLevel_s_eval : walkLevel cfg0 (childPath "/r" dS.name) [FSEntry.file fF]
    = ([fileDoc 10 (childPath "/r" dS.name) fF], false) := by
  rw [walkLevel,
    show emitDirDocs cfg0 (childPath "/r" dS.name) [FSEntry.file fF] = ([], false) from rfl,
    recurseDirs_s_eval]
  rfl

theorem recurseDirs_r_eval : recurseDirs cfg0 "/r" exChildren
    = ([fileDoc 10 (childPath "/r" dS.name) fF], false) := by
  show recurseDirs cfg0 "/r" [FSEntry.file fA, FSEntry.dir dS [FSEntry.file fF]] = _
  rw [recurseDirs, recurseDirs, if_neg (by decide), if_neg (by decide), walkLevel_s_eval,
    recurseDirs]
  rfl

theorem scan_r_eval : scan_directory cfg0 "/r" false exChildren
    = [dirDoc "/r" dS, fileDoc 10 "/r" fA, fileDoc 10 (childPath "/r" dS.name) fF] := by
  rw [scan_directory, if_neg (by decide), walkLevel,
    show emitDirDocs cfg0 "/r" exChildren = ([dirDoc "/r" dS], false) from rfl,
    recurseDirs_r_eval]
  rfl

theorem scan_s_eval : scan_directory cfg0 "/r/s" false [FSEntry.file fF]
    = [fileDoc 10 "/r/s" fF] := by
  rw [scan_directory, if_neg (by decide), walkLevel,
    show emitDirDocs cfg0 "/r/s" [FSEntry.file fF] = ([], false) from rfl,
    show recurseDirs cfg0 "/r/s" [FSEntry.file fF] = ([], false) by rw [recurseDirs, recurseDirs]]
  rfl

theorem idx_r_eval : index_directory cfg0 [] "/r" false exChildren
    = ([dirDoc "/r" dS, fileDoc 10 "/r" fA, fileDoc 10 (childPath "/r" dS.name) fF], 3) := by
  show ((remove_directory [] "/r").fst ++ scan_directory cfg0 "/r" false exChildren,
    (scan_directory cfg0 "/r" false exChildren).length) = _
  rw [scan_r_eval]
  rfl

theorem rebuildStep_some (cfg : ScanCfg) (fs : FileSystem) (r : String) (lf : Bool)
    (cs : List FSEntry) (h : resolveDir fs r = some (lf, cs)) (s : Store) (n : Nat) :
    rebuildStep cfg fs (s, n) r
      = ((index_directory cfg s r lf cs).fst, n + (index_directory cfg s r lf cs).snd) := by
  rw [rebuildStep, h]

theorem idx_s_eval : index_directory cfg0
    [dirDoc "/r" dS, fileDoc 10 "/r" fA, fileDoc 10 (childPath "/r" dS.name) fF] "/r/s" false
    [FSEntry.file fF] = ([fileDoc 10 "/r" fA, fileDoc 10 "/r/s" fF], 1) := by
  show ((remove_directory
      [dirDoc "/r" dS, fileDoc 10 "/r" fA, fileDoc 10 (childPath "/r" dS.name) fF]
        "/r/s").fst ++ scan_directory cfg0 "/r/s" false [FSEntry.file fF],
    (scan_directory cfg0 "/r/s" false [FSEntry.file fF]).length) = _
  rw [scan_s_eval]
  decide

theorem rebuild_eval : rebuild_index cfg0 exFS (index_directory cfg0 [] "/r" false exChildren).fst
    = ([fileDoc 10 "/r" fA, fileDoc 10 "/r/s" fF], 4) := by
  rw [idx_r_eval]
  show rebuild_index cfg0 exFS
    [dirDoc "/r" dS, fileDoc 10 "/r" fA, fileDoc 10 (childPath "/r" dS.name) fF] = _
  have hroots : get_indexed_directories
      [dirDoc "/r" dS, fileDoc 10 "/r" fA, fileDoc 10 (childPath "/r" dS.name) fF]
      = ["/r", "/r/s"] := by decide
  rw [rebuild_index, hroots, List.foldl_cons, List.foldl_cons, List.foldl_nil,
    rebuildStep_some cfg0 exFS "/r" false exChildren rfl [] 0, idx_r_eval,
    show ((([dirDoc "/r" dS, fileDoc 10 "/r" fA, fileDoc 10 (childPath "/r" dS.name) fF],
        3) : Store × Nat).fst, 0
      + (([dirDoc "/r" dS, fileDoc 10 "/r" fA, fileDoc 10 (childPath "/r" dS.name) fF],
        3) : Store × Nat).snd)
      = (([dirDoc "/r" dS, fileDoc 10 "/r" fA, fileDoc 10 (childPath "/r" dS.name) fF], 3)
          : Store × Nat) from rfl,
    rebuildStep_some cfg0 exFS "/r/s" false [FSEntry.file fF] rfl
      [dirDoc "/r" dS, fileDoc 10 "/r" fA, fileDoc 10 (childPath "/r" dS.name) fF] 3,
    idx_s_eval]
  rfl

/-! Claim theorems. -/

/-- C1: the spec (and the repository's own CLI at cli.py line 49 and test at
tests/test_large_files.py line 32) requires `index_directory` to accept a
`filenames_only` flag producing file documents with empty content and hash;
but the function's parameter list (indexer.py line 184) is
`(directory, show_progress)` only, so every such call raises
`TypeError: unexpected keyword argument`, and the single existing scan mode
always populates content and hash of a readable file. -/
theorem C1_filenames_only_flag_missing :
    acceptsKeywordArgs index_directory_py_params
        ["directory", "show_progress", "filenames_only"] = false
      ∧ acceptsKeywordArgs index_directory_py_params ["directory", "show_progress"] = true
      ∧ (fileDoc 10 "/r" fA).content = "hello"
      ∧ (fileDoc 10 "/r" fA).hash ≠ "" := by
  refine ⟨rfl, rfl, rfl, ?_⟩
  decide

/-- C2: with unique committed paths (the spec section 3 store invariant),
`remove_directory root` deletes, in one write session, exactly the entries
whose `dirname` equals the root, whose `path` equals the root, or whose
`path` extends root plus separator — and nothing else: the resulting store is
the original minus that union. -/
theorem C2_remove_directory_deletes_union (s : Store) (root : String)
    (h : (s.map Doc.path).Nodup) :
    (remove_directory s root).fst
      = s.filter (fun d =>
          !(d.dirname == root || d.path == root || strStartsWith (root ++ "/") d.path)) :=
  remove_directory_filter_eq s root h

/-- Witness for C2 at a concrete store. -/
theorem C2_remove_directory_deletes_union_witness :
    (([exChildDoc].map Doc.path).Nodup)
      ∧ (remove_directory [exChildDoc] "/r").fst
          = [exChildDoc].filter (fun d =>
              !(d.dirname == "/r" || d.path == "/r" || strStartsWith ("/r" ++ "/") d.path)) :=
  ⟨by decide, C2_remove_directory_deletes_union [exChildDoc] "/r" (by decide)⟩

/-- C3 counterexample: a store holding exactly one direct child of `/r`. The
single document matches both the `dirname` criterion and the prefix
criterion, so `remove_directory` returns 2 although the union of matching
entries has cardinality 1 — the claim that the count equals the union's
cardinality is false. -/
theorem C3_remove_count_counterexample :
    (remove_directory [exChildDoc] "/r").snd = 2
      ∧ ([exChildDoc].filter (fun d =>
          d.dirname == "/r" || d.path == "/r" || strStartsWith ("/r" ++ "/") d.path)).length
            = 1 := by
  exact ⟨rfl, rfl⟩

/-- C3 amended: the integer returned by `remove_directory` is the sum of the
sizes of the three query result lists — an entry matching several criteria
(every direct child matches both the `dirname` and the prefix criterion) is
counted once per criterion, not once. -/
theorem C3_remove_directory_count (s : Store) (root : String) :
    (remove_directory s root).snd
      = (dirnameMatches s root).length + (pathMatches s root).length
          + (subtreeMatches s root).length := by
  rw [remove_directory_snd, removalPaths]
  simp
  omega

/-- C4: on an unchanged store and filesystem, re-running `index_directory`
returns the same committed store and the same count: the pre-removal deletes
exactly what the previous run staged and the scan re-stages it identically. -/
theorem C4_index_directory_idempotent (cfg : ScanCfg) (s : Store) (root : String)
    (lf : Bool) (cs : List FSEntry) :
    index_directory cfg ((index_directory cfg s root lf cs).fst) root lf cs
      = index_directory cfg s root lf cs :=
  index_directory_fixed_point cfg s root lf cs

/-- C5 counterexample: root `/r` holds `a.txt` and subdirectory `s` (with file
`f`). After indexing `/r`, the derived roots are `/r` and `/r/s`, both still
on disk; a fresh `index_directory` of `/r` produces the document of `/r/s`,
but `rebuild_index` yields a store without it — the rebuilt store is not the
fresh document set. -/
theorem C5_rebuild_not_fresh_counterexample :
    "/r" ∈ get_indexed_directories (index_directory cfg0 [] "/r" false exChildren).fst
      ∧ (resolveDir exFS "/r").isSome = true
      ∧ dirDoc "/r" dS ∈ (index_directory cfg0 [] "/r" false exChildren).fst
      ∧ dirDoc "/r" dS
          ∉ (rebuild_index cfg0 exFS (index_directory cfg0 [] "/r" false exChildren).fst).fst := by
  refine ⟨by rw [idx_r_eval]; decide, rfl, by rw [idx_r_eval]; decide, by rw [rebuild_eval]; decide⟩

/-- C5 amended: `rebuild_index` derives the roots from the `isDirectory=true`
entries plus the file entries' parents, discards the store, skips roots that
no longer exist without raising, and re-runs `index_directory` on each
existing derived root in sorted order; but each such re-index first deletes
the root's own document and the scan never re-emits it, and no later (larger)
root can re-stage it, so after the rebuild no still-existing derived root has
a document under its own path — the rebuilt store therefore differs from a
fresh `index_directory` document set whenever one derived root lies inside
another. -/
theorem C5_rebuild_index_amended (cfg : ScanCfg) (fs : FileSystem) (s : Store) :
    (∀ (acc : Store × Nat) (r : String), resolveDir fs r = none →
        rebuildStep cfg fs acc r = acc)
      ∧ (∀ (r : String) (x : Bool × List FSEntry), r ∈ get_indexed_directories s →
          resolveDir fs r = some x → ∀ d ∈ (rebuild_index cfg fs s).fst, d.path ≠ r) :=
  ⟨fun acc r h => rebuildStep_skips h acc,
   fun r x hmem hres => rebuild_index_no_derived_root_doc cfg fs s r x hmem hres⟩

/-- Witness for C5 amended: a missing root is skipped, and the still-existing
derived root `/r/s` has no document in the rebuilt store. -/
theorem C5_rebuild_index_amended_witness :
    rebuildStep cfg0 exFS ([], 0) "/nope" = ([], 0)
      ∧ ∀ d ∈ (rebuild_index cfg0 exFS
          (index_directory cfg0 [] "/r" false exChildren).fst).fst, d.path ≠ "/r/s" :=
  ⟨(C5_rebuild_index_amended cfg0 exFS
      (index_directory cfg0 [] "/r" false exChildren).fst).1 ([], 0) "/nope" rfl,
   (C5_rebuild_index_amended cfg0 exFS
      (index_directory cfg0 [] "/r" false exChildren).fst).2 "/r/s"
        (false, [FSEntry.file fF]) (by rw [idx_r_eval]; decide) rfl⟩

/-- C6 counterexample: the listing of `/r` holds a stat-failing directory
followed by a healthy directory and a healthy file; the claim says only the
failing entry is skipped and every other entry is still emitted, but the
walk emits nothing at all. -/
theorem C6_scan_abort_counterexample :
    scan_directory cfg0 "/r" false
        [FSEntry.dir dBad [], FSEntry.dir dGood [], FSEntry.file fA] = []
      ∧ dGood.statFails = false ∧ dGood.listFails = false
      ∧ fA.statFails = false ∧ fA.readFails = false := by
  refine ⟨?_, rfl, rfl, rfl, rfl⟩
  rw [scan_directory, if_neg (by decide), walkLevel,
    show emitDirDocs cfg0 "/r" [FSEntry.dir dBad [], FSEntry.dir dGood [],
      FSEntry.file fA] = ([], true) from rfl]

/-- C6 amended: a stat failure on a single FILE skips only that file (the
walk equals the walk without it), and a failure enumerating a directory's
children aborts only that subtree (the walk equals the walk with that
directory empty, its own document still emitted, siblings continuing); but a
stat failure on a DIRECTORY entry aborts the entire remaining scan — only the
directory documents emitted before it at that level survive, and no file or
subtree document is emitted at all. -/
theorem C6_scan_failures_amended (cfg : ScanCfg) (parent : String) :
    (∀ (es : List FSEntry),
        walkLevel cfg parent (es.filter (fun e => !isFailedFile e))
          = walkLevel cfg parent es)
      ∧ (∀ (m : DirMeta) (pre cs post : List FSEntry), m.listFails = true →
          walkLevel cfg parent (pre ++ FSEntry.dir m cs :: post)
            = walkLevel cfg parent (pre ++ FSEntry.dir m [] :: post))
      ∧ (∀ (m : DirMeta) (pre cs post : List FSEntry) (ds : List Doc), m.statFails = true →
          cfg.ignore (childPath parent m.name) = false →
          emitDirDocs cfg parent pre = (ds, false) →
          walkLevel cfg parent (pre ++ FSEntry.dir m cs :: post) = (ds, true)) :=
  ⟨fun es => walkLevel_filter_files cfg parent es,
   fun m pre cs post hlf => walkLevel_listFails cfg parent m hlf pre cs post,
   fun m pre cs post ds hst hig hpre =>
     walkLevel_dir_stat_abort cfg parent m pre cs post ds hst hig hpre⟩

/-- Witness for C6 amended at concrete listings. -/
theorem C6_scan_failures_amended_witness :
    walkLevel cfg0 "/r" ([FSEntry.file fBadStat, FSEntry.file fA].filter
        (fun e => !isFailedFile e))
        = walkLevel cfg0 "/r" [FSEntry.file fBadStat, FSEntry.file fA]
      ∧ walkLevel cfg0 "/r" [FSEntry.dir ⟨"s", 150, false, true⟩ [FSEntry.file fF]]
          = walkLevel cfg0 "/r" [FSEntry.dir ⟨"s", 150, false, true⟩ []]
      ∧ walkLevel cfg0 "/r" [FSEntry.dir dBad [], FSEntry.dir dGood []] = ([], true) :=
  ⟨(C6_scan_failures_amended cfg0 "/r").1 [FSEntry.file fBadStat, FSEntry.file fA],
   (C6_scan_failures_amended cfg0 "/r").2.1 ⟨"s", 150, false, true⟩ [] [FSEntry.file fF] [] rfl,
   (C6_scan_failures_amended cfg0 "/r").2.2 dBad [] [] [FSEntry.dir dGood []] [] rfl rfl rfl⟩

/-- C7 counterexample: a file whose `stat()` raises makes `_extract_content`
raise out of the size check instead of returning an empty string — the claim
that extraction never raises for every path is false. -/
theorem C7_extract_content_counterexample :
    extract_content 10 fBadStat = Except.error () := rfl

/-- C7 amended: if the initial `stat()` of the size check succeeds, content
extraction never raises — an oversized file and an open/read failure both
degrade to the empty string — but a `stat()` failure propagates an exception
to the caller (which the scanner's per-entry handler catches). -/
theorem C7_extract_content_amended (cap : Nat) (f : FileMeta) :
    (f.statFails = false → extract_content cap f
        = Except.ok (if f.size > cap * 1024 * 1024 then ""
            else if f.readFails = true then "" else f.content))
      ∧ (f.statFails = true → extract_content cap f = Except.error ()) := by
  constructor
  · intro h
    rw [extract_content, if_neg (by rw [h]; decide)]
    split_ifs <;> rfl
  · intro h
    rw [extract_content, if_pos h]

/-- Witness for C7 amended: a healthy file yields its text, a stat-failing
file raises. -/
theorem C7_extract_content_amended_witness :
    extract_content 10 fA = Except.ok "hello"
      ∧ extract_content 10 fBadStat = Except.error () := by
  constructor
  · rw [(C7_extract_content_amended 10 fA).1 rfl]
    rfl
  · exact (C7_extract_content_amended 10 fBadStat).2 rfl

/-- C8: the periodic tick flushes exactly when the pending set is non-empty
and more than the 2-second idle threshold has elapsed since the most recent
enqueue; a flush empties the whole pending set and reconciles it as one batch
inside one write session; and an enqueue within the threshold prevents any
flush at ticks until the set goes idle. -/
theorem C8_watcher_debounce (cap : Nat) (wfs : String → Option PathNode)
    (st : WatcherState) (s : Store) (now : Nat) :
    (¬(2 < now - st.last_update_time ∧ st.pending_updates ≠ []) →
        process_pending_updates cap wfs st s now = (st, s))
      ∧ ((2 < now - st.last_update_time ∧ st.pending_updates ≠ []) →
          process_pending_updates cap wfs st s now
            = ({ pending_updates := [], last_update_time := st.last_update_time },
                st.pending_updates.foldl (reconcilePath cap wfs) s))
      ∧ (∀ (ig : String → Bool) (p : String) (t : Nat), ig p = false → now ≤ t + 2 →
          process_pending_updates cap wfs (queue_update ig st p t) s now
            = (queue_update ig st p t, s)) := by
  refine ⟨?_, ?_, ?_⟩
  · intro h
    rw [process_pending_updates, if_neg h]
  · intro h
    rw [process_pending_updates, if_pos h]
  · intro ig p t hig hle
    have hq : (queue_update ig st p t).last_update_time = t := by
      rw [queue_update, if_neg (by simp [hig])]
    rw [process_pending_updates, if_neg]
    intro hc
    rw [hq] at hc
    exact absurd hc.1 (by omega)

/-- Witness for C8 at concrete states: no flush one second after an enqueue,
a full flush after three idle seconds, and no flush right after a fresh
enqueue. -/
theorem C8_watcher_debounce_witness :
    process_pending_updates 10 (fun _ => none) ⟨["/r/x"], 5⟩ [] 6 = (⟨["/r/x"], 5⟩, [])
      ∧ process_pending_updates 10 (fun _ => none) ⟨["/r/x"], 5⟩ [] 8 = (⟨[], 5⟩, [])
      ∧ process_pending_updates 10 (fun _ => none)
          (queue_update (fun _ => false) ⟨[], 0⟩ "/r/x" 7) [] 9
          = (queue_update (fun _ => false) ⟨[], 0⟩ "/r/x" 7, []) := by
  refine ⟨(C8_watcher_debounce 10 (fun _ => none) ⟨["/r/x"], 5⟩ [] 6).1 (by decide), ?_,
    (C8_watcher_debounce 10 (fun _ => none) ⟨[], 0⟩ [] 9).2.2 (fun _ => false) "/r/x" 7 rfl
      (by omega)⟩
  rw [(C8_watcher_debounce 10 (fun _ => none) ⟨["/r/x"], 5⟩ [] 8).2.1 (by decide)]
  rfl

/-- C9: the size post-filter of `search` is inclusive at both ends: among the
store's returned results, a document is kept exactly when
`minSize ≤ size ≤ maxSize`, so a document of exactly `minSize` or exactly
`maxSize` bytes is included and only strictly-outside sizes are dropped. -/
theorem C9_size_bounds_inclusive (minS maxS : Nat) (results : List Doc) (d : Doc)
    (h : d ∈ results) :
    d ∈ apply_post_filters (some maxS) (some minS) none none results
      ↔ minS ≤ d.size ∧ d.size ≤ maxS := by
  rw [apply_post_filters, List.mem_filter]
  simp [passes_filters, h]
  omega

/-- Witness for C9: a 1-byte document against bounds `[1, 1]`. -/
theorem C9_size_bounds_inclusive_witness :
    exChildDoc ∈ apply_post_filters (some 1) (some 1) none none [exChildDoc]
      ↔ 1 ≤ exChildDoc.size ∧ exChildDoc.size ≤ 1 :=
  C9_size_bounds_inclusive 1 1 [exChildDoc] exChildDoc (by decide)

/-- C10: `index_directory` never applies the path filter to the root and
never commits a document for the root itself: every scanned document's path
strictly extends root plus separator, the scan is unchanged when the ignore
predicate is altered at the root alone (so a hidden or ignore-matching root
still has its contents indexed), and after the call no committed document has
the root's path. -/
theorem C10_root_never_filtered_or_emitted (cfg : ScanCfg) (root : String) (lf : Bool)
    (cs : List FSEntry) :
    (∀ d ∈ scan_directory cfg root lf cs,
        strStartsWith (root ++ "/") d.path = true ∧ d.path ≠ root)
      ∧ (∀ (cfg2 : ScanCfg), cfg2.cap = cfg.cap →
          (∀ p, p ≠ root → cfg2.ignore p = cfg.ignore p) →
          scan_directory cfg2 root lf cs = scan_directory cfg root lf cs)
      ∧ (∀ (s : Store), ∀ d ∈ (index_directory cfg s root lf cs).fst, d.path ≠ root) :=
  ⟨fun d hd => ⟨scan_directory_path hd, scan_directory_path_ne hd⟩,
   fun cfg2 hcap hagree => scan_directory_ignore_congr cfg cfg2 root lf cs hcap hagree,
   fun s d hd => index_directory_no_root_doc cfg s root lf cs d hd⟩

/-- Witness for C10: the scanned subdirectory document of `/r` lies under
`/r`, a filter ignoring exactly the root changes nothing, and the store after
indexing `/r` has no document at `/r`. -/
theorem C10_root_never_filtered_or_emitted_witness :
    (strStartsWith ("/r" ++ "/") (dirDoc "/r" dS).path = true ∧ (dirDoc "/r" dS).path ≠ "/r")
      ∧ scan_directory ⟨fun p => p == "/r", 10⟩ "/r" false exChildren
          = scan_directory cfg0 "/r" false exChildren
      ∧ (∀ d ∈ (index_directory cfg0 [] "/r" false exChildren).fst, d.path ≠ "/r") :=
  ⟨(C10_root_never_filtered_or_emitted cfg0 "/r" false exChildren).1 (dirDoc "/r" dS)
      (by rw [scan_r_eval]; decide),
   (C10_root_never_filtered_or_emitted cfg0 "/r" false exChildren).2.1 ⟨fun p => p == "/r", 10⟩
      rfl (fun p hp => by simp [cfg0, hp]),
   (C10_root_never_filtered_or_emitted cfg0 "/r" false exChildren).2.2 []⟩

end FolderIndexer
